import Mathlib

/-!
# Verification of the image-organizer core (catalog, plan builder, scan
pipeline, history, commit executor)

Shallow embedding of the Python sources:
* `src/app.py` (`ImageOrganizerApp.preview_organization`, `execute_plan`)
* `src/gui/workers.py` (`ScanWorker.run`)
* `src/logic/catalog.py` (`ImageCatalog`)
* `src/logic/history.py` (`UpdateMetadataCommand`, `HistoryManager`)

Python strings are Lean `String`s; Python dicts with string keys are
insertion-ordered association lists `List (String × _)` (faithful to the
insertion-order semantics of Python dicts); Python exceptions are
`Except String _`; the classifier (`EfficientNetTagger.predict_tags`) is
an opaque parameter, fallible (`String → Except String (List String)`)
where decode errors matter.
-/

set_option maxRecDepth 8000

namespace ImgOrg

/-- ASCII lower-casing of one character, as Python `str.lower` acts on
the ASCII range (all strings in play here are ASCII). -/
def lowerChar (c : Char) : Char :=
  if 'A' ≤ c ∧ c ≤ 'Z' then Char.ofNat (c.toNat + 32) else c

/-- ASCII upper-casing of one character (for `str.title`). -/
def upperChar (c : Char) : Char :=
  if 'a' ≤ c ∧ c ≤ 'z' then Char.ofNat (c.toNat - 32) else c

/-- Python `str.lower` on the ASCII range. -/
def pyLower (s : String) : String :=
  String.mk (s.toList.map lowerChar)

/-- Is this an ASCII letter (a cased character for `str.title`)? -/
def isAlpha (c : Char) : Bool :=
  ('a' ≤ c ∧ c ≤ 'z') ∨ ('A' ≤ c ∧ c ≤ 'Z')

/-- Worker for `pyTitle`: `prev` records whether the previous character
was a letter; a letter after a non-letter is upper-cased, a letter after
a letter is lower-cased. -/
def titleGo (prev : Bool) : List Char → List Char
  | [] => []
  | c :: cs =>
      if isAlpha c then
        (if prev then lowerChar c else upperChar c) :: titleGo true cs
      else
        c :: titleGo false cs

/-- Python `str.title` on the ASCII range: the first letter of every
maximal letter-run is upper-cased, the rest lower-cased. -/
def pyTitle (s : String) : String :=
  String.mk (titleGo false s.toList)

/-- The priority category list of `ImageOrganizerApp.preview_organization`
(`src/app.py` line 31). -/
def priority_cats : List String :=
  ["military", "vehicles", "people", "animals", "construction", "electronics"]

/-- Folder choice of `preview_organization` (`src/app.py` lines 45-51):
`"Uncategorized"` for an empty tag list; otherwise the first tag whose
lower-casing is in `priority_cats`, title-cased; otherwise the first tag,
title-cased. -/
def chooseFolder (tags : List String) : String :=
  match tags with
  | [] => "Uncategorized"
  | t0 :: _ =>
      match tags.find? (fun t => priority_cats.contains (pyLower t)) with
      | some t => pyTitle t
      | none => pyTitle t0

example : chooseFolder ["tank", "vehicle"] = "Tank" := by decide
example : chooseFolder ["bicycle"] = "Bicycle" := by decide
example : chooseFolder [] = "Uncategorized" := by decide
example : chooseFolder ["jeep", "military"] = "Military" := by decide

/-- Last path component, as `pathlib.PurePath.name` on a `/`-separated
path (no trailing separator): the characters after the last `/`. -/
def lastComponent (path : String) : String :=
  String.mk ((path.toList.reverse.takeWhile (fun c => c ≠ '/')).reverse)

example : lastComponent "photos/trip/a.jpg" = "a.jpg" := by decide
example : lastComponent "a.jpg" = "a.jpg" := by decide

/-- Split a file name into `(stem, suffix)` following
`pathlib.PurePath.stem` / `.suffix`: the suffix starts at the last dot,
provided that dot is neither the first nor the last character. -/
def splitExt (name : String) : String × String :=
  let cs := name.toList
  match (cs.enum.filter (fun p => p.2 = '.')).getLast? with
  | some (i, _) =>
      if 0 < i ∧ i < cs.length - 1 then
        (String.mk (cs.take i), String.mk (cs.drop i))
      else (name, "")
  | none => (name, "")

/-- `pathlib` stem of a file name. -/
def pyStem (name : String) : String := (splitExt name).1

/-- `pathlib` suffix (extension, dot included) of a file name. -/
def pySuffix (name : String) : String := (splitExt name).2

example : pyStem "a.jpg" = "a" ∧ pySuffix "a.jpg" = ".jpg" := by decide
example : pyStem "a_1.jpg" = "a_1" ∧ pySuffix "photo" = "" := by decide

/-- The image-extension allow-list of `preview_organization`
(`src/app.py` line 25). -/
def valid_exts : List String :=
  [".jpg", ".jpeg", ".png", ".bmp", ".gif", ".webp", ".tiff"]

/-- One entry of a Plan: the dict built at `src/app.py` lines 53-59. -/
structure FileData where
  original_path : String
  filename : String
  new_filename : String
  tags : List String
  proposed_folder : String
  deriving DecidableEq, Repr

/-- A Plan: folder name → ordered entry list, in key-insertion order
(Python `defaultdict(list)` converted by `dict(plan)`). -/
def Plan : Type := List (String × List FileData)

instance : DecidableEq Plan := inferInstanceAs (DecidableEq (List (String × List FileData)))

/-- `plan[folder_name].append(file_data)` on the insertion-ordered map. -/
def planAdd (p : Plan) (key : String) (fd : FileData) : Plan :=
  match p with
  | [] => [(key, [fd])]
  | (k, fds) :: rest =>
      if k = key then (k, fds ++ [fd]) :: rest
      else (k, fds) :: planAdd rest key fd

/-- Total number of entries in a Plan. -/
def countEntries (p : Plan) : Nat :=
  (List.map (fun kv : String × List FileData => kv.2.length) p).sum

/-- The `file_data` dict built for one image (`src/app.py` lines 53-59). -/
def entryFor (tags : List String) (path : String) : FileData :=
  let nm := lastComponent path
  { original_path := path, filename := nm, new_filename := nm,
    tags := tags, proposed_folder := chooseFolder tags }

/-- Extension filtering of the enumerated files (`src/app.py` line 26). -/
def validImages (files : List String) : List String :=
  files.filter (fun f => valid_exts.contains (pyLower (pySuffix (lastComponent f))))

/-- The per-file loop of `preview_organization` (`src/app.py` lines
34-60): `stop i` is whether the shared stop event is set at the check
preceding file `i`; the tagger may raise (decode/classification error),
which propagates out of the loop uncaught. -/
def scanLoopE (tagger : String → Except String (List String))
    (stop : Nat → Bool) : List String → Nat → Plan → Except String Plan
  | [], _, plan => .ok plan
  | f :: rest, i, plan =>
      if stop i then .ok plan
      else
        match tagger f with
        | .error e => .error e
        | .ok tags =>
            scanLoopE tagger stop rest (i + 1) (planAdd plan (chooseFolder tags) (entryFor tags f))

/-- `ImageOrganizerApp.preview_organization` (`src/app.py` lines 19-62)
over an abstract enumerated file list. -/
def previewE (tagger : String → Except String (List String))
    (files : List String) (stop : Nat → Bool) : Except String Plan :=
  scanLoopE tagger stop (validImages files) 0 []

/-- The terminal events `ScanWorker` can emit (`src/gui/workers.py`
lines 46-72): `finished(plan)` or `error(msg)`. -/
inductive ScanOutcome where
  | finished (plan : Plan)
  | error (msg : String)
  deriving DecidableEq

/-- `ScanWorker.run` (`src/gui/workers.py` lines 58-72): emits
`finished` with the returned plan, or `error` if the preview raised. -/
def runWorker (tagger : String → Except String (List String))
    (files : List String) (stop : Nat → Bool) : ScanOutcome :=
  match previewE tagger files stop with
  | .ok p => .finished p
  | .error e => .error e

/-- A tagger that never raises, from a total tag function. -/
def okTagger (tgr : String → List String) : String → Except String (List String) :=
  fun f => .ok (tgr f)

/-- The plan built from fully processing every file of `imgs` on top of
`plan` (no stop, no failure): the reference for partial-scan results. -/
def buildPlanOn (tgr : String → List String) (imgs : List String) (plan : Plan) : Plan :=
  imgs.foldl (fun p f => planAdd p (chooseFolder (tgr f)) (entryFor (tgr f) f)) plan

/-- `List.find?` returns the first element satisfying the predicate:
helper for the folder-choice characterization. -/
theorem find?_first_of_split (p : String → Bool) (pre : List String) (t : String)
    (post : List String) (ht : p t = true) (hpre : ∀ u ∈ pre, p u = false) :
    List.find? p (pre ++ t :: post) = some t := by
  induction pre with
  | nil => simp [List.find?, ht]
  | cons q pre ih =>
      have hq := hpre q (by simp)
      simpa [List.find?, hq] using ih (fun u hu => hpre u (by simp [hu]))

theorem chooseFolder_cons (a : String) (l : List String) :
    chooseFolder (a :: l) =
      (match (a :: l).find? (fun t => priority_cats.contains (pyLower t)) with
       | some t => pyTitle t
       | none => pyTitle a) := rfl

/-- Claim C1, counterexample: the code has no fine-label-to-category
mapping; with tags `["tank", "vehicle"]` neither lower-cased tag is
literally in `priority_cats` (which holds `"vehicles"`, plural), so the
proposed folder is `"Tank"`, not `"Military"` as the claim's example
demands. -/
theorem chooseFolder_tank_not_military :
    chooseFolder ["tank", "vehicle"] = "Tank" ∧ "Tank" ≠ "Military" := by
  constructor
  · decide
  · decide

/-- Claim C1 (amended): the proposed folder of every scanned file is
`chooseFolder` of its tag list; on an empty tag list it is
`"Uncategorized"`; the first label whose lower-casing is literally one of
the priority category names wins, title-cased (no fine-to-coarse
mapping); when no label matches, the first (highest-confidence) label is
used, title-cased, e.g. `["bicycle"]` gives `"Bicycle"` and
`["tank", "vehicle"]` gives `"Tank"`. -/
theorem chooseFolder_spec :
    (∀ (tags : List String) (path : String),
      (entryFor tags path).proposed_folder = chooseFolder tags) ∧
    chooseFolder [] = "Uncategorized" ∧
    (∀ (pre : List String) (t : String) (post : List String),
      priority_cats.contains (pyLower t) = true →
      (∀ u ∈ pre, priority_cats.contains (pyLower u) = false) →
      chooseFolder (pre ++ t :: post) = pyTitle t) ∧
    (∀ (t0 : String) (rest : List String),
      (∀ u ∈ t0 :: rest, priority_cats.contains (pyLower u) = false) →
      chooseFolder (t0 :: rest) = pyTitle t0) ∧
    chooseFolder ["bicycle"] = "Bicycle" ∧
    chooseFolder ["tank", "vehicle"] = "Tank" := by
  refine ⟨fun tags path => rfl, rfl, ?_, ?_, by decide, by decide⟩
  · intro pre t post ht hpre
    have hfind :
        List.find? (fun t => priority_cats.contains (pyLower t)) (pre ++ t :: post)
          = some t := find?_first_of_split _ pre t post ht hpre
    cases pre with
    | nil => rw [List.nil_append] at hfind ⊢; rw [chooseFolder_cons, hfind]
    | cons q pre => rw [List.cons_append] at hfind ⊢; rw [chooseFolder_cons, hfind]
  · intro t0 rest hall
    have hfind :
        List.find? (fun t => priority_cats.contains (pyLower t)) (t0 :: rest)
          = none := by
      rw [List.find?_eq_none]
      intro x hx
      simpa using hall x hx
    rw [chooseFolder_cons, hfind]

/-- Closed instance of `chooseFolder_spec`: discharges its hypotheses at
`pre = ["jeep"]`, `t = "military"`, `post = ["truck"]` and at an
all-unmatched list `["bicycle", "road"]`. -/
theorem chooseFolder_spec_witness :
    (priority_cats.contains (pyLower "military") = true ∧
      (∀ u ∈ ["jeep"], priority_cats.contains (pyLower u) = false) ∧
      chooseFolder (["jeep"] ++ "military" :: ["truck"]) = pyTitle "military") ∧
    ((∀ u ∈ "bicycle" :: ["road"], priority_cats.contains (pyLower u) = false) ∧
      chooseFolder ("bicycle" :: ["road"]) = pyTitle "bicycle") := by
  refine ⟨⟨by decide, by decide, ?_⟩, ⟨by decide, ?_⟩⟩
  · exact chooseFolder_spec.2.2.1 ["jeep"] "military" ["truck"] (by decide) (by decide)
  · exact chooseFolder_spec.2.2.2.1 "bicycle" ["road"] (by decide)

/-- Index (relative position in `imgs`) at which the per-file loop
breaks: the first position whose stop-check is set, or the list length
when the check is never set. -/
def breakIndex (stop : Nat → Bool) (i : Nat) : List String → Nat
  | [] => 0
  | _ :: rest => if stop i then 0 else breakIndex stop (i + 1) rest + 1

theorem breakIndex_le_length (stop : Nat → Bool) :
    ∀ (imgs : List String) (i : Nat), breakIndex stop i imgs ≤ imgs.length := by
  intro imgs
  induction imgs with
  | nil => intro i; simp [breakIndex]
  | cons f rest ih =>
      intro i
      by_cases h : stop i = true
      · simp [breakIndex, h]
      · simp only [breakIndex, if_neg h, List.length_cons]
        exact Nat.succ_le_succ (ih (i + 1))

theorem breakIndex_le_of_stop (stop : Nat → Bool) (N : Nat)
    (hstop : ∀ j, N ≤ j → stop j = true) :
    ∀ (imgs : List String) (i : Nat), breakIndex stop i imgs ≤ N - i := by
  intro imgs
  induction imgs with
  | nil => intro i; simp [breakIndex]
  | cons f rest ih =>
      intro i
      by_cases h : stop i = true
      · simp [breakIndex, h]
      · have hiN : i < N := by
          by_contra hge
          exact h (hstop i (by omega))
        simp only [breakIndex, if_neg h]
        have := ih (i + 1)
        omega

/-- The per-file loop with an always-succeeding tagger returns `ok` of
the plan built from the prefix of files processed before the stop-check
fired: cancellation yields a fully-built plan for a prefix, never a
half-built structure. -/
theorem scanLoopE_ok (tgr : String → List String) (stop : Nat → Bool) :
    ∀ (imgs : List String) (i : Nat) (plan : Plan),
      scanLoopE (okTagger tgr) stop imgs i plan =
        .ok (buildPlanOn tgr (imgs.take (breakIndex stop i imgs)) plan) := by
  intro imgs
  induction imgs with
  | nil => intro i plan; rfl
  | cons f rest ih =>
      intro i plan
      by_cases h : stop i = true
      · simp [scanLoopE, breakIndex, h, buildPlanOn]
      · simp only [scanLoopE, breakIndex, if_neg h, okTagger, List.take_succ_cons]
        rw [ih (i + 1)]
        rfl

theorem countEntries_planAdd (p : Plan) (key : String) (fd : FileData) :
    countEntries (planAdd p key fd) = countEntries p + 1 := by
  induction p with
  | nil => simp [planAdd, countEntries]
  | cons kv rest ih =>
      obtain ⟨k, fds⟩ := kv
      by_cases h : k = key
      · simp [planAdd, h, countEntries]
        omega
      · simp [planAdd, h, countEntries] at ih ⊢
        omega

theorem countEntries_buildPlanOn (tgr : String → List String) :
    ∀ (imgs : List String) (plan : Plan),
      countEntries (buildPlanOn tgr imgs plan) = countEntries plan + imgs.length := by
  intro imgs
  induction imgs with
  | nil => intro plan; simp [buildPlanOn]
  | cons f rest ih =>
      intro plan
      show countEntries (buildPlanOn tgr rest (planAdd plan _ _)) = _
      rw [ih, countEntries_planAdd]
      simp
      omega

/-- `ScanWorker.run` with an always-succeeding tagger always emits
`finished`, carrying the plan built from the prefix of valid images
processed before the stop-check fired. -/
theorem runWorker_ok (tgr : String → List String) (files : List String)
    (stop : Nat → Bool) :
    runWorker (okTagger tgr) files stop =
      .finished (buildPlanOn tgr
        ((validImages files).take (breakIndex stop 0 (validImages files))) []) := by
  show (match previewE (okTagger tgr) files stop with
        | .ok p => ScanOutcome.finished p
        | .error e => ScanOutcome.error e) = _
  rw [show previewE (okTagger tgr) files stop =
        scanLoopE (okTagger tgr) stop (validImages files) 0 [] from rfl,
      scanLoopE_ok]

/-- 100 image files, as in the spec's cancellation scenario. -/
def cexFiles100 : List String :=
  (List.range 100).map (fun i => "f" ++ toString i ++ ".jpg")

/-- Claim C2, counterexample: `ScanWorker` has only two terminal events,
`finished(plan)` and `error(msg)`; scanning 100 files and cancelling
after the 10th terminates with the `finished` outcome (carrying the
10-entry partial plan) — the very same terminal outcome constructor an
uncancelled run of the same 100 files produces — so there is no distinct
Cancelled terminal outcome and the cancelled scan does end in the
Completed one. -/
theorem scan_cancelled_terminal_is_finished :
    runWorker (okTagger (fun _ => ["cat"])) cexFiles100 (fun i => decide (10 ≤ i)) =
      .finished (buildPlanOn (fun _ => ["cat"]) (cexFiles100.take 10) []) ∧
    countEntries (buildPlanOn (fun _ => ["cat"]) (cexFiles100.take 10) []) = 10 ∧
    runWorker (okTagger (fun _ => ["cat"])) cexFiles100 (fun _ => false) =
      .finished (buildPlanOn (fun _ => ["cat"]) cexFiles100 []) := by
  have hval : validImages cexFiles100 = cexFiles100 := by decide
  have hbi : breakIndex (fun i => decide (10 ≤ i)) 0 cexFiles100 = 10 := by decide
  have hbi2 : breakIndex (fun _ => false) 0 cexFiles100 = 100 := by decide
  have htake : cexFiles100.take 100 = cexFiles100 := by
    rw [show (100 : Nat) = cexFiles100.length from by decide, List.take_length]
  refine ⟨?_, by decide, ?_⟩
  · rw [runWorker_ok, hval, hbi]
  · rw [runWorker_ok, hval, hbi2, htake]

/-- Claim C2 (amended): when cancellation is requested after the N-th
file, the scan terminates with the worker's `finished` terminal outcome
(there is no distinct Cancelled event) carrying the plan fully built
from the prefix of files processed before the stop-check fired — at most
N entries, never a half-built structure. -/
theorem scan_cancel_partial_plan (tgr : String → List String)
    (files : List String) (stop : Nat → Bool) (N : Nat)
    (hstop : ∀ j, N ≤ j → stop j = true) :
    runWorker (okTagger tgr) files stop =
      .finished (buildPlanOn tgr
        ((validImages files).take (breakIndex stop 0 (validImages files))) []) ∧
    breakIndex stop 0 (validImages files) ≤ N ∧
    countEntries (buildPlanOn tgr
        ((validImages files).take (breakIndex stop 0 (validImages files))) []) ≤ N := by
  have hle : breakIndex stop 0 (validImages files) ≤ N := by
    have := breakIndex_le_of_stop stop N hstop (validImages files) 0
    omega
  refine ⟨runWorker_ok tgr files stop, hle, ?_⟩
  · rw [countEntries_buildPlanOn]
    have h1 : ((validImages files).take (breakIndex stop 0 (validImages files))).length
        ≤ breakIndex stop 0 (validImages files) := by
      simp
    simp only [countEntries, List.map_nil, List.sum_nil]
    omega

/-- Closed instance of `scan_cancel_partial_plan` at two image files
with the stop flag set from the check before file index 1 onward. -/
theorem scan_cancel_partial_plan_witness :
    runWorker (okTagger (fun _ => ["cat"])) ["a.jpg", "b.jpg"] (fun i => decide (1 ≤ i)) =
      .finished (buildPlanOn (fun _ => ["cat"])
        ((validImages ["a.jpg", "b.jpg"]).take
          (breakIndex (fun i => decide (1 ≤ i)) 0 (validImages ["a.jpg", "b.jpg"]))) []) ∧
    breakIndex (fun i => decide (1 ≤ i)) 0 (validImages ["a.jpg", "b.jpg"]) ≤ 1 ∧
    countEntries (buildPlanOn (fun _ => ["cat"])
        ((validImages ["a.jpg", "b.jpg"]).take
          (breakIndex (fun i => decide (1 ≤ i)) 0 (validImages ["a.jpg", "b.jpg"]))) []) ≤ 1 :=
  scan_cancel_partial_plan (fun _ => ["cat"]) ["a.jpg", "b.jpg"]
    (fun i => decide (1 ≤ i)) 1 (fun _ hj => decide_eq_true hj)

/-- A tagger whose decode of `bad.jpg` raises, as `Image.open` does on
an unreadable file inside `EfficientNetTagger.predict_tags`
(`src/ai/efficientnet_tagger.py` lines 51-69, which has no
try/except — only `predict_tags_batch` absorbs per-file failures). -/
def badTagger : String → Except String (List String) :=
  fun f => if f = "bad.jpg" then .error "cannot identify image file" else .ok ["cat"]

/-- Claim C3, divergence: a decode failure on one file aborts the whole
batch. `preview_organization` calls `predict_tags`, which does not catch
the decode exception; the exception propagates out of the per-file loop,
`ScanWorker.run` emits the `error` terminal event, and no plan is
produced — the failing file does not appear as an `"Uncategorized"`
entry and the remaining file `good.jpg` is never processed. A batch of
zero discovered files does yield an empty plan, as the claim says. -/
theorem preview_decode_failure_aborts_batch :
    previewE badTagger ["bad.jpg", "good.jpg"] (fun _ => false) =
      .error "cannot identify image file" ∧
    runWorker badTagger ["bad.jpg", "good.jpg"] (fun _ => false) =
      .error "cannot identify image file" ∧
    (∀ (tagger : String → Except String (List String)) (stop : Nat → Bool),
      previewE tagger [] stop = .ok []) := by
  exact ⟨rfl, rfl, fun tagger stop => rfl⟩

/-! ## Catalog Store (`src/logic/catalog.py`)

The JSON document is modelled by an AST; a file's content is
`Option Json`, `none` standing for bytes that `json.load` fails to
parse. In-memory image metadata is modelled as the typed record the
code writes (`filename`, `tags`, `last_modified`,
`ImageCatalog.add_or_update_image` lines 86-90); the per-catalog mutex
makes every modelled operation atomic, so it is not represented. -/

/-- JSON values. -/
inductive Json where
  | str (s : String)
  | num (n : Int)
  | jbool (b : Bool)
  | null
  | arr (xs : List Json)
  | obj (fields : List (String × Json))

/-- Metadata stored per image (`src/logic/catalog.py` lines 86-90). -/
structure Meta where
  filename : String
  tags : List String
  last_modified : String
  deriving DecidableEq, Repr

/-- In-memory state of `ImageCatalog`: `catalog_path`, the
insertion-ordered `images` map, `base_dir` and the `_modified` flag. -/
structure Catalog where
  catalog_path : Option String
  images : List (String × Meta)
  base_dir : Option String
  modified : Bool
  deriving DecidableEq, Repr

/-- `dict.get(key, default)` on a JSON object; the default is also
returned when the value is not an object (the AttributeError branch is
handled separately in `loadCatalog`). -/
def jsonGetD (j : Json) (key : String) (d : Json) : Json :=
  match j with
  | .obj fields =>
      match fields.find? (fun p => p.1 = key) with
      | some p => p.2
      | none => d
  | _ => d

/-- Encoding of one metadata record into the catalog document. -/
def metaToJson (m : Meta) : Json :=
  .obj [("filename", .str m.filename),
        ("tags", .arr (m.tags.map .str)),
        ("last_modified", .str m.last_modified)]

/-- Encoding of the images map into the catalog document. -/
def imagesToJson (imgs : List (String × Meta)) : Json :=
  .obj (imgs.map (fun p => (p.1, metaToJson p.2)))

/-- The document `ImageCatalog.save` writes (`src/logic/catalog.py`
lines 56-61): images, `base_dir` as a string (empty when unset), a
version tag and the `updated` timestamp `now`. -/
def saveDoc (c : Catalog) (now : String) : Json :=
  .obj [("images", imagesToJson c.images),
        ("base_dir", .str ((c.base_dir).getD "")),
        ("version", .str "1.0"),
        ("updated", .str now)]

/-- `ImageCatalog.save` (`src/logic/catalog.py` lines 48-69): returns
`none` (False) when no catalog path is set; otherwise the written
document, with `_modified` cleared. -/
def saveCatalog (c : Catalog) (now : String) : Option Json × Catalog :=
  match c.catalog_path with
  | none => (none, c)
  | some _ => (some (saveDoc c now), { c with modified := false })

/-- Typing boundary for a loaded tag array. -/
def decodeTags : Json → List String
  | .arr xs => xs.map (fun j => match j with | .str s => s | _ => "")
  | _ => []

/-- Typing boundary for one loaded metadata record. -/
def metaOfJson (j : Json) : Meta :=
  { filename := match jsonGetD j "filename" (.str "") with | .str s => s | _ => ""
    tags := decodeTags (jsonGetD j "tags" (.arr []))
    last_modified := match jsonGetD j "last_modified" (.str "") with | .str s => s | _ => "" }

/-- Typing boundary for the loaded images map. -/
def decodeImages (j : Json) : List (String × Meta) :=
  match j with
  | .obj fields => fields.map (fun p => (p.1, metaOfJson p.2))
  | _ => []

/-- `ImageCatalog.load` (`src/logic/catalog.py` lines 29-46), statement
by statement. `newPath` is the optional argument (assigned to
`catalog_path` even when the rest fails), `fileExists` whether the file
exists, `content` the file's bytes (`none` = `json.load` raises).
Mutations performed before an exception persist, as in Python:
`self.images` is assigned before `base_dir` is examined, so a document
whose `base_dir` value cannot become a `Path` leaves `images`
overwritten while returning False. -/
def loadCatalog (newPath : Option String) (fileExists : Bool)
    (content : Option Json) (c : Catalog) : Bool × Catalog :=
  let c1 := match newPath with
            | some p => { c with catalog_path := some p }
            | none => c
  if c1.catalog_path = none ∨ fileExists = false then (false, c1)
  else
    match content with
    | none => (false, c1)
    | some data =>
        match data with
        | .obj _ =>
            let c2 := { c1 with images := decodeImages (jsonGetD data "images" (.obj [])) }
            match jsonGetD data "base_dir" (.str "") with
            | .str s =>
                (true, { c2 with base_dir := if s = "" then none else some s,
                                 modified := false })
            | _ => (false, c2)
        | _ => (false, c1)

theorem decodeTags_metaTags (tags : List String) :
    decodeTags (.arr (tags.map .str)) = tags := by
  induction tags with
  | nil => rfl
  | cons t ts ih => simpa [decodeTags] using ih

theorem metaOfJson_metaToJson (m : Meta) :
    metaOfJson (metaToJson m) = m := by
  obtain ⟨f, tags, lm⟩ := m
  simp [metaOfJson, metaToJson, jsonGetD, List.find?, decodeTags_metaTags]

theorem decodeImages_imagesToJson (imgs : List (String × Meta)) :
    decodeImages (imagesToJson imgs) = imgs := by
  induction imgs with
  | nil => rfl
  | cons p rest ih =>
      obtain ⟨k, m⟩ := p
      simpa [decodeImages, imagesToJson, metaOfJson_metaToJson]
        using ih

/-- Claim C4: saving a catalog and loading the produced document (into
any prior in-memory state holding a catalog path) succeeds and restores
the images map and `base_dir` exactly. `base_dir` is a `pathlib.Path`
or `None` in the code, so its string form is never empty — the
hypothesis `c.base_dir ≠ some ""` records that. -/
theorem save_load_roundtrip (c c' : Catalog) (now : String)
    (hpath : c'.catalog_path ≠ none) (hbd : c.base_dir ≠ some "") :
    (loadCatalog none true (some (saveDoc c now)) c').1 = true ∧
    (loadCatalog none true (some (saveDoc c now)) c').2.images = c.images ∧
    (loadCatalog none true (some (saveDoc c now)) c').2.base_dir = c.base_dir := by
  have himg : jsonGetD (saveDoc c now) "images" (.obj []) = imagesToJson c.images := by
    simp [saveDoc, jsonGetD, List.find?]
  have hbdj : jsonGetD (saveDoc c now) "base_dir" (.str "") =
      .str ((c.base_dir).getD "") := by
    simp [saveDoc, jsonGetD, List.find?]
  cases hcp : c'.catalog_path with
  | none => exact absurd hcp hpath
  | some p =>
      cases hb : c.base_dir with
      | none =>
          simp [loadCatalog, hcp, saveDoc, jsonGetD, List.find?,
                decodeImages_imagesToJson, hb]
      | some s =>
          have hs : s ≠ "" := by
            intro h
            exact hbd (by rw [hb, h])
          simp [loadCatalog, hcp, saveDoc, jsonGetD, List.find?,
                decodeImages_imagesToJson, hb, hs]

/-- Closed instance of `save_load_roundtrip` on a one-image catalog with
base directory `/root/pics`, loaded back into an empty catalog. -/
theorem save_load_roundtrip_witness :
    ((some "/tmp/cat.json" : Option String) ≠ none ∧
      (some "/root/pics" : Option String) ≠ some "") ∧
    ((loadCatalog none true
        (some (saveDoc
          ⟨some "/tmp/cat.json", [("a/b.jpg", ⟨"Sunset", ["beach", "sunset"], "t0"⟩)],
           some "/root/pics", true⟩ "t1"))
        ⟨some "/tmp/cat.json", [], none, false⟩).1 = true ∧
      (loadCatalog none true
        (some (saveDoc
          ⟨some "/tmp/cat.json", [("a/b.jpg", ⟨"Sunset", ["beach", "sunset"], "t0"⟩)],
           some "/root/pics", true⟩ "t1"))
        ⟨some "/tmp/cat.json", [], none, false⟩).2.images =
        [("a/b.jpg", ⟨"Sunset", ["beach", "sunset"], "t0"⟩)] ∧
      (loadCatalog none true
        (some (saveDoc
          ⟨some "/tmp/cat.json", [("a/b.jpg", ⟨"Sunset", ["beach", "sunset"], "t0"⟩)],
           some "/root/pics", true⟩ "t1"))
        ⟨some "/tmp/cat.json", [], none, false⟩).2.base_dir = some "/root/pics") :=
  ⟨⟨by simp, by simp⟩,
    save_load_roundtrip
      ⟨some "/tmp/cat.json", [("a/b.jpg", ⟨"Sunset", ["beach", "sunset"], "t0"⟩)],
       some "/root/pics", true⟩
      ⟨some "/tmp/cat.json", [], none, false⟩ "t1" (by simp) (by simp)⟩

/-- Claim C5: `load` on a file whose bytes fail to parse (`json.load`
raises before any assignment) returns False and leaves `images` and
`base_dir` exactly as they were, for every prior in-memory state — only
`catalog_path` is reassigned, which the claim does not cover. -/
theorem load_parse_failure_preserves_state (newPath : Option String)
    (fileExists : Bool) (c : Catalog) :
    (loadCatalog newPath fileExists none c).1 = false ∧
    (loadCatalog newPath fileExists none c).2.images = c.images ∧
    (loadCatalog newPath fileExists none c).2.base_dir = c.base_dir := by
  cases newPath with
  | none =>
      cases hcp : c.catalog_path with
      | none => simp [loadCatalog, hcp]
      | some p =>
          cases fileExists with
          | false => simp [loadCatalog, hcp]
          | true => simp [loadCatalog, hcp]
  | some p =>
      cases fileExists with
      | false => simp [loadCatalog]
      | true => simp [loadCatalog]

/-- Substring test on character lists (Python `in` on `str`): some
tail of the haystack starts with the needle. -/
def containsSub (needle : List Char) : List Char → Bool
  | [] => needle.isEmpty
  | c :: rest => needle.isPrefixOf (c :: rest) || containsSub needle rest

example : containsSub "ebra".toList "zebra.jpg".toList = true := by decide
example : containsSub "xy".toList "zebra.jpg".toList = false := by decide

/-- Python `needle in haystack.lower()` where `needle` is already
lower-cased: case-insensitive substring test against `target`. -/
def ciIn (needle target : String) : Bool :=
  containsSub needle.toList (pyLower target).toList

/-- The loop body of `ImageCatalog.search` (`src/logic/catalog.py`
lines 113-126): relative path first, then filename, then any tag, with
`continue` after the first hit; iteration follows the images map's
insertion order. -/
def searchLoop (ql : String) : List (String × Meta) → List String
  | [] => []
  | (rel, m) :: rest =>
      if ciIn ql rel then rel :: searchLoop ql rest
      else if ciIn ql m.filename then rel :: searchLoop ql rest
      else if m.tags.any (fun t => ciIn ql t) then rel :: searchLoop ql rest
      else searchLoop ql rest

/-- `ImageCatalog.search` (`src/logic/catalog.py` lines 108-126):
empty query short-circuits to `[]` (`if not query`); otherwise the query
is lower-cased once and matched as a substring. -/
def searchCat (c : Catalog) (q : String) : List String :=
  if q = "" then [] else searchLoop (pyLower q) c.images

/-- Does a record match the query, in the words of the specification: the
query is a case-insensitive substring of the relative path, of the
filename, or of some tag. -/
def specMatches (q rel : String) (m : Meta) : Bool :=
  ciIn (pyLower q) rel || ciIn (pyLower q) m.filename ||
    m.tags.any (fun t => ciIn (pyLower q) t)

theorem searchLoop_eq_filter (q : String) :
    ∀ imgs : List (String × Meta),
      searchLoop (pyLower q) imgs =
        (imgs.filter (fun p => specMatches q p.1 p.2)).map Prod.fst := by
  intro imgs
  induction imgs with
  | nil => rfl
  | cons p rest ih =>
      obtain ⟨rel, m⟩ := p
      cases h1 : ciIn (pyLower q) rel
      · cases h2 : ciIn (pyLower q) m.filename
        · cases h3 : m.tags.any (fun t => ciIn (pyLower q) t)
          · simp [searchLoop, specMatches, h1, h2, h3, ih]
          · simp [searchLoop, specMatches, h1, h2, h3, ih]
        · simp [searchLoop, specMatches, h1, h2, ih]
      · simp [searchLoop, specMatches, h1, ih]

/-- Lexicographic (code-point) order on strings, the "sorted by key"
order the specification asks for. -/
def strLtL : List Char → List Char → Bool
  | [], [] => false
  | [], _ :: _ => true
  | _ :: _, [] => false
  | a :: as, b :: bs => if a = b then strLtL as bs else decide (a.toNat < b.toNat)

/-- Boolean `≤` on strings (lexicographic). -/
def strLeB (a b : String) : Bool := a = b || strLtL a.toList b.toList

/-- A catalog whose images map was populated with key `"zebra.jpg"`
before key `"apple.jpg"`. -/
def cexCatalog : Catalog :=
  ⟨none, [("zebra.jpg", ⟨"z", [], "t"⟩), ("apple.jpg", ⟨"a", [], "t"⟩)], none, false⟩

/-- Claim C6, counterexample: `search` iterates the images map in
insertion order, not sorted by key. Both keys of `cexCatalog` match the
query `"a"`, and the result lists `"zebra.jpg"` before `"apple.jpg"` —
not sorted by key. -/
theorem search_not_sorted_by_key :
    searchCat cexCatalog "a" = ["zebra.jpg", "apple.jpg"] ∧
    ¬ List.Pairwise (fun a b => strLeB a b = true) (searchCat cexCatalog "a") := by
  constructor
  · decide
  · intro h
    rw [show searchCat cexCatalog "a" = ["zebra.jpg", "apple.jpg"] from by decide] at h
    have : strLeB "zebra.jpg" "apple.jpg" = true :=
      (List.pairwise_cons.mp h).1 "apple.jpg" (by simp)
    exact absurd this (by decide)

/-- Claim C6 (amended): for a nonempty query, `search` returns exactly
the relative paths whose relative path, filename, or some tag contains
the query case-insensitively, in the images map's insertion (iteration)
order — deterministic for a given in-memory map, but not sorted by key;
an empty query returns `[]`. -/
theorem search_exact_matches (c : Catalog) (q : String) (hq : q ≠ "") :
    searchCat c q = (c.images.filter (fun p => specMatches q p.1 p.2)).map Prod.fst ∧
    (∀ r, r ∈ searchCat c q ↔ ∃ m, (r, m) ∈ c.images ∧ specMatches q r m = true) := by
  have heq : searchCat c q =
      (c.images.filter (fun p => specMatches q p.1 p.2)).map Prod.fst := by
    rw [show searchCat c q = searchLoop (pyLower q) c.images by simp [searchCat, hq]]
    exact searchLoop_eq_filter q c.images
  refine ⟨heq, fun r => ?_⟩
  rw [heq]
  constructor
  · intro hr
    obtain ⟨p, hp, hfst⟩ := List.mem_map.mp hr
    obtain ⟨hmem, hmatch⟩ := List.mem_filter.mp hp
    exact ⟨p.2, by rwa [show (r, p.2) = p from by rw [← hfst]], by rwa [← hfst]⟩
  · intro ⟨m, hmem, hmatch⟩
    exact List.mem_map.mpr ⟨(r, m), List.mem_filter.mpr ⟨hmem, hmatch⟩, rfl⟩

/-- Closed instance of `search_exact_matches` on `cexCatalog` with query
`"PP"` (matching `"apple.jpg"` case-insensitively via the path). -/
theorem search_exact_matches_witness :
    ("PP" : String) ≠ "" ∧
    searchCat cexCatalog "PP" =
      ((cexCatalog.images).filter
        (fun p => specMatches "PP" p.1 p.2)).map Prod.fst ∧
    ("apple.jpg" ∈ searchCat cexCatalog "PP" ↔
      ∃ m, ("apple.jpg", m) ∈ cexCatalog.images ∧
        specMatches "PP" "apple.jpg" m = true) := by
  refine ⟨by decide, ?_, ?_⟩
  · exact (search_exact_matches cexCatalog "PP" (by decide)).1
  · exact (search_exact_matches cexCatalog "PP" (by decide)).2 "apple.jpg"

/-- Claim C10: the empty query returns the empty list (the
`if not query` guard fires), even though the empty string is a substring
of every string. -/
theorem search_empty_query (c : Catalog) :
    searchCat c "" = [] ∧ ∀ s : String, ciIn "" s = true := by
  refine ⟨rfl, fun s => ?_⟩
  show containsSub [] (pyLower s).toList = true
  induction (pyLower s).toList with
  | nil => rfl
  | cons c rest ih => simp [containsSub, List.isPrefixOf]

/-- Closed instance of `search_empty_query` (its only binder is the
catalog, but it also universally quantifies inside; instantiate both). -/
theorem search_empty_query_witness :
    searchCat cexCatalog "" = [] ∧ ciIn "" "Zebra" = true :=
  ⟨(search_empty_query cexCatalog).1, (search_empty_query cexCatalog).2 "Zebra"⟩

/-- `Path(abs).relative_to(base)` on `/`-separated paths: succeeds when
`base` is a component-wise ancestor of `abs` (modelled as the string
prefix `base ++ "/"`), returning the remainder. -/
def relativeTo (absPath base : String) : Option String :=
  if (base ++ "/").toList.isPrefixOf absPath.toList then
    some (String.mk (absPath.toList.drop (base.length + 1)))
  else none

example : relativeTo "/root/a/b.jpg" "/root" = some "a/b.jpg" := by decide
example : relativeTo "/elsewhere/c.jpg" "/root" = none := by decide

/-- `self.images[rel_path] = {...}` on the insertion-ordered map: an
existing key is overwritten in place, a new key appended. -/
def updateAssoc : List (String × Meta) → String → Meta → List (String × Meta)
  | [], k, v => [(k, v)]
  | (k1, v1) :: rest, k, v =>
      if k1 = k then (k, v) :: rest else (k1, v1) :: updateAssoc rest k v

/-- `ImageCatalog.add_or_update_image` (`src/logic/catalog.py` lines
76-91): raises ValueError (first component `some message`) when no base
directory is set, before touching any state; otherwise computes the
relative key (falling back to the absolute path) and writes the entry,
marking the catalog modified. -/
def addOrUpdateImage (c : Catalog) (absPath filename : String)
    (tags : List String) (now : String) : Option String × Catalog :=
  match c.base_dir with
  | none => (some "Base directory not set. Call set_base_dir() first.", c)
  | some base =>
      let rel := (relativeTo absPath base).getD absPath
      (none, { c with images := updateAssoc c.images rel ⟨filename, tags, now⟩,
                      modified := true })

/-- Claim C9: with `base_dir` unset, the upsert raises ValueError and
the images map (indeed the whole catalog state) is untouched — the
raise is the method's first statement. -/
theorem upsert_without_base_dir_raises (c : Catalog) (absPath filename : String)
    (tags : List String) (now : String) (hbd : c.base_dir = none) :
    addOrUpdateImage c absPath filename tags now =
      (some "Base directory not set. Call set_base_dir() first.", c) ∧
    (addOrUpdateImage c absPath filename tags now).2.images = c.images := by
  constructor
  · simp [addOrUpdateImage, hbd]
  · simp [addOrUpdateImage, hbd]

/-- Closed instance of `upsert_without_base_dir_raises` on a catalog
with one image and no base directory. -/
theorem upsert_without_base_dir_raises_witness :
    (Catalog.base_dir ⟨none, [("x.jpg", ⟨"x", [], "t"⟩)], none, false⟩ = none) ∧
    addOrUpdateImage ⟨none, [("x.jpg", ⟨"x", [], "t"⟩)], none, false⟩
        "/root/a.jpg" "a" ["cat"] "t1" =
      (some "Base directory not set. Call set_base_dir() first.",
        ⟨none, [("x.jpg", ⟨"x", [], "t"⟩)], none, false⟩) :=
  ⟨rfl,
    (upsert_without_base_dir_raises ⟨none, [("x.jpg", ⟨"x", [], "t"⟩)], none, false⟩
      "/root/a.jpg" "a" ["cat"] "t1" rfl).1⟩

/-! ## Commit Executor (`ImageOrganizerApp.execute_plan`, `src/app.py`
lines 64-96)

The filesystem is the list of existing destination file paths; a copy
outcome is an oracle `copyFails` on the source path (the `try` block's
only modelled failure is `shutil.copy2`). Directory creation has no
effect on file-existence checks and is not represented. -/

/-- Commit statistics (`src/app.py` line 66). -/
structure CommitStats where
  processed : Nat
  failed : Nat
  merged : Nat
  deriving DecidableEq, Repr

/-- The `while dst.exists()` collision loop (`src/app.py` lines 85-87):
try `stem_1`, `stem_2`, … until a free name; `stem` and `suffix` are
computed once from the original destination. Fuel bounds the search;
`|fs| + 1` candidates always suffice. -/
def findFree (fs : List String) (dir stem suffix : String) :
    Nat → Nat → String
  | counter, 0 => dir ++ "/" ++ stem ++ "_" ++ toString counter ++ suffix
  | counter, fuel + 1 =>
      let cand := dir ++ "/" ++ stem ++ "_" ++ toString counter ++ suffix
      if fs.contains cand then findFree fs dir stem suffix (counter + 1) fuel
      else cand

/-- Processing of one plan entry (`src/app.py` lines 76-94): collision
renaming, then the copy, updating the filesystem and the counters. -/
def execEntry (copyFails : String → Bool) (destBase folder : String)
    (st : List String × CommitStats) (f : FileData) : List String × CommitStats :=
  let fs := st.1
  let stats := st.2
  let dir := destBase ++ "/" ++ folder
  let dst0 := dir ++ "/" ++ f.filename
  let collided := fs.contains dst0
  let dst := if collided then
               findFree fs dir (pyStem f.filename) (pySuffix f.filename) 1 (fs.length + 1)
             else dst0
  let merged := if collided then stats.merged + 1 else stats.merged
  if copyFails f.original_path then
    (fs, { stats with merged := merged, failed := stats.failed + 1 })
  else
    (fs ++ [dst], { stats with merged := merged, processed := stats.processed + 1 })

/-- The per-folder loop body: process the folder's entries in order. -/
def execFiles (copyFails : String → Bool) (destBase folder : String)
    (files : List FileData) (st : List String × CommitStats) :
    List String × CommitStats :=
  files.foldl (execEntry copyFails destBase folder) st

/-- `ImageOrganizerApp.execute_plan` (`src/app.py` lines 64-96) over the
modelled filesystem `fs0`. -/
def execPlan (copyFails : String → Bool) (destBase : String)
    (plan : Plan) (fs0 : List String) : List String × CommitStats :=
  plan.foldl (fun st kv => execFiles copyFails destBase kv.1 kv.2 st)
    (fs0, ⟨0, 0, 0⟩)

/-- Number of plan entries whose copy the oracle fails. -/
def planFailCount (copyFails : String → Bool) (plan : Plan) : Nat :=
  (List.map (fun kv : String × List FileData =>
    (kv.2.filter (fun f => copyFails f.original_path)).length) plan).sum

theorem execEntry_stats (copyFails : String → Bool) (destBase folder : String)
    (st : List String × CommitStats) (f : FileData) :
    ((execEntry copyFails destBase folder st f).2.processed =
      if copyFails f.original_path then st.2.processed else st.2.processed + 1) ∧
    ((execEntry copyFails destBase folder st f).2.failed =
      if copyFails f.original_path then st.2.failed + 1 else st.2.failed) := by
  cases h : copyFails f.original_path <;> simp [execEntry, h]

theorem execFiles_stats (copyFails : String → Bool) (destBase folder : String) :
    ∀ (files : List FileData) (st : List String × CommitStats),
      ((execFiles copyFails destBase folder files st).2.processed =
        st.2.processed + (files.filter (fun f => !(copyFails f.original_path))).length) ∧
      ((execFiles copyFails destBase folder files st).2.failed =
        st.2.failed + (files.filter (fun f => copyFails f.original_path)).length) := by
  intro files
  induction files with
  | nil => intro st; simp [execFiles]
  | cons f rest ih =>
      intro st
      have hstep := execEntry_stats copyFails destBase folder st f
      have hrest := ih (execEntry copyFails destBase folder st f)
      rw [show execFiles copyFails destBase folder (f :: rest) st =
            execFiles copyFails destBase folder rest
              (execEntry copyFails destBase folder st f) from rfl] at *
      cases h : copyFails f.original_path <;>
        simp [h] at hstep <;>
        constructor <;> simp [List.filter, h, hrest.1, hrest.2, hstep.1, hstep.2] <;> omega

theorem execPlan_stats (copyFails : String → Bool) (destBase : String) :
    ∀ (plan : Plan) (fs0 : List String),
      ((execPlan copyFails destBase plan fs0).2.processed +
        (execPlan copyFails destBase plan fs0).2.failed = countEntries plan) ∧
      ((execPlan copyFails destBase plan fs0).2.failed = planFailCount copyFails plan) := by
  have main : ∀ (plan : Plan) (st : List String × CommitStats),
      ((plan.foldl (fun st kv => execFiles copyFails destBase kv.1 kv.2 st) st).2.processed =
        st.2.processed +
          (List.map (fun kv : String × List FileData =>
            (kv.2.filter (fun f => !(copyFails f.original_path))).length) plan).sum) ∧
      ((plan.foldl (fun st kv => execFiles copyFails destBase kv.1 kv.2 st) st).2.failed =
        st.2.failed + planFailCount copyFails plan) := by
    intro plan
    induction plan with
    | nil => intro st; simp [planFailCount]
    | cons kv rest ih =>
        intro st
        have hstep := execFiles_stats copyFails destBase kv.1 kv.2 st
        have hrest := ih (execFiles copyFails destBase kv.1 kv.2 st)
        simp only [List.foldl_cons] at *
        refine ⟨?_, ?_⟩
        · rw [hrest.1, hstep.1]; simp [planFailCount]; omega
        · rw [hrest.2, hstep.2]; simp [planFailCount]; omega
  intro plan fs0
  have h := main plan (fs0, ⟨0, 0, 0⟩)
  have h1 : (execPlan copyFails destBase plan fs0).2.processed =
      0 + (List.map (fun kv : String × List FileData =>
        (kv.2.filter (fun f => !(copyFails f.original_path))).length) plan).sum := h.1
  have h2 : (execPlan copyFails destBase plan fs0).2.failed =
      0 + planFailCount copyFails plan := h.2
  refine ⟨?_, ?_⟩
  · have hsum : ∀ p : Plan,
        (List.map (fun kv : String × List FileData =>
          (kv.2.filter (fun f => !(copyFails f.original_path))).length) p).sum +
        planFailCount copyFails p = countEntries p := by
      intro p
      induction p with
      | nil => simp [planFailCount, countEntries]
      | cons kv rest ihp =>
          simp only [planFailCount, countEntries, List.map_cons, List.sum_cons] at ihp ⊢
          have hlen := List.length_eq_length_filter_add (l := kv.2)
            (fun f => copyFails f.original_path)
          omega
    have := hsum plan
    omega
  · omega

/-- Two plan entries from different sources resolving to the same
destination name `a.jpg` in folder `Pets`. -/
def entryA1 : FileData := ⟨"s1", "a.jpg", "a.jpg", [], "Pets"⟩

/-- Second entry of the collision pair. -/
def entryA2 : FileData := ⟨"s2", "a.jpg", "a.jpg", [], "Pets"⟩

/-- Claim C7: committing two entries that resolve to the same
destination filename renames the second to `a_1.jpg` and yields
`processed = 2`, `failed = 0`, `merged = 1`; the numeric suffix keeps
incrementing past occupied names (`a_2.jpg`, `a_3.jpg` when `a.jpg` and
`a_1.jpg` already exist); a single entry's copy failure increments
`failed`, the rest of the batch is still processed, and in general
`processed + failed` equals the total entry count (no abort) with
`failed` exactly the number of failing copies. -/
theorem commit_collision_and_failure :
    execPlan (fun _ => false) "dest" [("Pets", [entryA1, entryA2])] [] =
      (["dest/Pets/a.jpg", "dest/Pets/a_1.jpg"], ⟨2, 0, 1⟩) ∧
    execPlan (fun _ => false) "dest" [("Pets", [entryA1, entryA2])]
        ["dest/Pets/a.jpg", "dest/Pets/a_1.jpg"] =
      (["dest/Pets/a.jpg", "dest/Pets/a_1.jpg",
        "dest/Pets/a_2.jpg", "dest/Pets/a_3.jpg"], ⟨2, 0, 2⟩) ∧
    execPlan (fun p => p = "s1") "dest" [("Pets", [entryA1, entryA2])] [] =
      (["dest/Pets/a.jpg"], ⟨1, 1, 0⟩) ∧
    (∀ (copyFails : String → Bool) (destBase : String) (plan : Plan)
        (fs0 : List String),
      (execPlan copyFails destBase plan fs0).2.processed +
        (execPlan copyFails destBase plan fs0).2.failed = countEntries plan ∧
      (execPlan copyFails destBase plan fs0).2.failed =
        planFailCount copyFails plan) := by
  refine ⟨by decide, by decide, by decide, ?_⟩
  intro copyFails destBase plan fs0
  exact (execPlan_stats copyFails destBase plan fs0)

/-! ## History Manager (`src/logic/history.py`) and the edit flow of
`MainWindow._update_local_meta` (`src/gui/main_window.py` lines 466-519)

A plan entry here carries the four mutable fields a snapshot covers
(`new_filename`, `tags`, `rating`, `color_label`); the embedded UI
refresh callback has no effect on the data state and is omitted. -/

/-- A plan entry as the history commands see it. -/
structure HEntry where
  original_path : String
  filename : String
  new_filename : String
  tags : List String
  rating : Int
  color_label : String
  deriving DecidableEq, Repr

/-- The dict snapshot `_update_local_meta` captures: exactly the four
mutable fields. -/
structure Snapshot where
  new_filename : String
  tags : List String
  rating : Int
  color_label : String
  deriving DecidableEq, Repr

/-- The old-snapshot taken from the target before the edit. -/
def snapOf (e : HEntry) : Snapshot :=
  ⟨e.new_filename, e.tags, e.rating, e.color_label⟩

/-- `target.update(snapshot)`: overwrite the four snapshot fields. -/
def applySnap (e : HEntry) (s : Snapshot) : HEntry :=
  { e with new_filename := s.new_filename, tags := s.tags,
           rating := s.rating, color_label := s.color_label }

/-- `UpdateMetadataCommand` (`src/logic/history.py` lines 10-30) as
data: key plus old and new snapshots. -/
structure Command where
  file_id : String
  old_data : Snapshot
  new_data : Snapshot
  deriving DecidableEq, Repr

/-- `next((f for f in model_list if f['original_path'] == file_id), None)`. -/
def findEntry (fid : String) (l : List HEntry) : Option HEntry :=
  l.find? (fun e => e.original_path = fid)

/-- Update the first entry with the given key by a snapshot; no match,
no change (the command's `if target:` guard). -/
def applyAt (fid : String) (s : Snapshot) : List HEntry → List HEntry
  | [] => []
  | e :: rest =>
      if e.original_path = fid then applySnap e s :: rest
      else e :: applyAt fid s rest

/-- `HistoryManager` state together with the entry list the commands
alias (`undo_stack`/`redo_stack` heads are the stack tops). -/
structure HState where
  entries : List HEntry
  undoStack : List Command
  redoStack : List Command
  deriving DecidableEq, Repr

/-- `HistoryManager.undo` (`src/logic/history.py` lines 41-46): no-op on
an empty stack (returns `None`); otherwise pop, apply the old snapshot,
move the command to the redo stack. -/
def undoRun (st : HState) : Option String × HState :=
  match st.undoStack with
  | [] => (none, st)
  | cmd :: rest =>
      (some "Undo Performed",
        { entries := applyAt cmd.file_id cmd.old_data st.entries,
          undoStack := rest,
          redoStack := cmd :: st.redoStack })

/-- `HistoryManager.redo` (`src/logic/history.py` lines 48-53). -/
def redoRun (st : HState) : Option String × HState :=
  match st.redoStack with
  | [] => (none, st)
  | cmd :: rest =>
      (some "Redo Performed",
        { entries := applyAt cmd.file_id cmd.new_data st.entries,
          undoStack := cmd :: st.undoStack,
          redoStack := rest })

/-- One edit as `_update_local_meta` performs it: find the target; if
present, snapshot it, push the command (`push` clears the redo stack,
`src/logic/history.py` line 39), then apply the new data. -/
def doEdit (st : HState) (fid : String) (ns : Snapshot) : HState :=
  match findEntry fid st.entries with
  | none => st
  | some e =>
      { entries := applyAt fid ns st.entries,
        undoStack := ⟨fid, snapOf e, ns⟩ :: st.undoStack,
        redoStack := [] }

/-- A sequence of edits. -/
def doEdits (st : HState) : List (String × Snapshot) → HState
  | [] => st
  | (fid, ns) :: rest => doEdits (doEdit st fid ns) rest

/-- `n` undo calls (the last call outermost). -/
def undoN : Nat → HState → HState
  | 0, st => st
  | n + 1, st => (undoRun (undoN n st)).2

/-- `n` redo calls (the first call innermost). -/
def redoN : Nat → HState → HState
  | 0, st => st
  | n + 1, st => redoN n (redoRun st).2

/-- The commands the edit sequence pushes, in final redo-stack order
(earliest edit on top after a full undo run). -/
def cmdsOf (st : HState) : List (String × Snapshot) → List Command
  | [] => []
  | (fid, ns) :: rest =>
      match findEntry fid st.entries with
      | none => cmdsOf st rest
      | some e => ⟨fid, snapOf e, ns⟩ :: cmdsOf (doEdit st fid ns) rest

theorem applySnap_applySnap (e : HEntry) (ns : Snapshot) :
    applySnap (applySnap e ns) (snapOf e) = e := rfl

theorem applyAt_original_path (fid : String) (s : Snapshot) :
    ∀ l : List HEntry, (applyAt fid s l).map HEntry.original_path =
      l.map HEntry.original_path := by
  intro l
  induction l with
  | nil => rfl
  | cons e rest ih =>
      by_cases h : e.original_path = fid
      · simp [applyAt, h, applySnap]
      · simp [applyAt, h, ih]

theorem findEntry_isSome_iff_key (fid : String) :
    ∀ m : List HEntry,
      (findEntry fid m).isSome = (m.map HEntry.original_path).contains fid := by
  intro m
  induction m with
  | nil => rfl
  | cons e rest ihm =>
      by_cases h : e.original_path = fid
      · simp [findEntry, List.find?, h]
      · have h' : ¬(fid = e.original_path) := fun hh => h hh.symm
        simpa [findEntry, List.find?, h, h'] using ihm

theorem findEntry_isSome_applyAt (fid g : String) (s : Snapshot)
    (l : List HEntry) :
    (findEntry fid (applyAt g s l)).isSome = (findEntry fid l).isSome := by
  rw [findEntry_isSome_iff_key, findEntry_isSome_iff_key,
    applyAt_original_path]

/-- Undoing an edit restores the entry list exactly: applying the old
snapshot to the first key match inverts applying the new one. -/
theorem applyAt_inverts (fid : String) (ns : Snapshot) :
    ∀ (l : List HEntry) (e : HEntry), findEntry fid l = some e →
      applyAt fid (snapOf e) (applyAt fid ns l) = l := by
  intro l
  induction l with
  | nil => intro e he; simp [findEntry, List.find?] at he
  | cons a rest ih =>
      intro e he
      by_cases h : a.original_path = fid
      · have hea : e = a := by
          simp [findEntry, List.find?, h] at he
          exact he.symm
        subst hea
        obtain ⟨p, f, nf, tg, r, cl⟩ := e
        simp only [HEntry.original_path] at h
        subst h
        simp [applyAt, applySnap, snapOf]
      · have he' : findEntry fid rest = some e := by
          simpa [findEntry, List.find?, h] using he
        simp [applyAt, h, ih e he']

theorem doEdit_found (st : HState) (fid : String) (ns : Snapshot)
    (e : HEntry) (he : findEntry fid st.entries = some e) :
    doEdit st fid ns =
      ⟨applyAt fid ns st.entries, ⟨fid, snapOf e, ns⟩ :: st.undoStack, []⟩ := by
  simp [doEdit, he]

/-- After `n` edits, `n` undo calls pop exactly the pushed commands:
entries and undo stack return to their pre-edit values and the redo
stack holds the pushed commands, earliest on top. -/
theorem undoN_doEdits :
    ∀ (edits : List (String × Snapshot)) (st : HState),
      (∀ p ∈ edits.map Prod.fst, (findEntry p st.entries).isSome = true) →
      undoN edits.length (doEdits st edits) =
        ⟨st.entries, st.undoStack,
          if edits.isEmpty then st.redoStack else cmdsOf st edits⟩ := by
  intro edits
  induction edits with
  | nil => intro st _; simp [undoN, doEdits]
  | cons en rest ih =>
      obtain ⟨fid, ns⟩ := en
      intro st hf
      have hs : (findEntry fid st.entries).isSome = true := hf fid (by simp)
      obtain ⟨e, he⟩ := Option.isSome_iff_exists.mp hs
      have hst : doEdit st fid ns =
          ⟨applyAt fid ns st.entries, ⟨fid, snapOf e, ns⟩ :: st.undoStack, []⟩ :=
        doEdit_found st fid ns e he
      have hf' : ∀ p ∈ rest.map Prod.fst,
          (findEntry p (doEdit st fid ns).entries).isSome = true := by
        intro p hp
        rw [hst]
        rw [show (HState.mk (applyAt fid ns st.entries)
              (⟨fid, snapOf e, ns⟩ :: st.undoStack) []).entries =
            applyAt fid ns st.entries from rfl,
          findEntry_isSome_applyAt]
        exact hf p (by simp [hp])
      have ihr := ih (doEdit st fid ns) hf'
      show (undoRun (undoN rest.length (doEdits (doEdit st fid ns) rest))).2 = _
      rw [ihr, hst]
      simp only [undoRun]
      rw [applyAt_inverts fid ns st.entries e he]
      have hcmds : cmdsOf st ((fid, ns) :: rest) =
          ⟨fid, snapOf e, ns⟩ :: cmdsOf (doEdit st fid ns) rest := by
        simp [cmdsOf, he]
      cases rest with
      | nil => simp [hcmds, cmdsOf, he]
      | cons r rs =>
          simp only [hcmds, List.isEmpty_cons, if_neg Bool.false_ne_true]
          rw [← hst]

/-- After `n` edits and `n` undo calls, `n` redo calls rebuild the
post-edit state exactly. -/
theorem redoN_undoN_doEdits :
    ∀ (edits : List (String × Snapshot)) (st : HState),
      (∀ p ∈ edits.map Prod.fst, (findEntry p st.entries).isSome = true) →
      redoN edits.length (undoN edits.length (doEdits st edits)) =
        doEdits st edits := by
  intro edits
  induction edits with
  | nil => intro st _; rfl
  | cons en rest ih =>
      obtain ⟨fid, ns⟩ := en
      intro st hf
      have hs : (findEntry fid st.entries).isSome = true := hf fid (by simp)
      obtain ⟨e, he⟩ := Option.isSome_iff_exists.mp hs
      have hst : doEdit st fid ns =
          ⟨applyAt fid ns st.entries, ⟨fid, snapOf e, ns⟩ :: st.undoStack, []⟩ :=
        doEdit_found st fid ns e he
      have hf' : ∀ p ∈ rest.map Prod.fst,
          (findEntry p (doEdit st fid ns).entries).isSome = true := by
        intro p hp
        rw [hst]
        rw [show (HState.mk (applyAt fid ns st.entries)
              (⟨fid, snapOf e, ns⟩ :: st.undoStack) []).entries =
            applyAt fid ns st.entries from rfl,
          findEntry_isSome_applyAt]
        exact hf p (by simp [hp])
      have hU := undoN_doEdits rest (doEdit st fid ns) hf'
      show redoN (rest.length + 1)
          ((undoRun (undoN rest.length (doEdits (doEdit st fid ns) rest))).2) =
          doEdits (doEdit st fid ns) rest
      rw [hU, hst]
      simp only [undoRun]
      rw [applyAt_inverts fid ns st.entries e he]
      show redoN rest.length
          ((redoRun ⟨st.entries, st.undoStack,
            ⟨fid, snapOf e, ns⟩ ::
              (if rest.isEmpty then ([] : List Command)
               else cmdsOf ⟨applyAt fid ns st.entries,
                 ⟨fid, snapOf e, ns⟩ :: st.undoStack, []⟩ rest)⟩).2) = _
      simp only [redoRun]
      have hZ : (HState.mk (applyAt fid ns st.entries)
            (⟨fid, snapOf e, ns⟩ :: st.undoStack)
            (if rest.isEmpty then ([] : List Command)
             else cmdsOf ⟨applyAt fid ns st.entries,
               ⟨fid, snapOf e, ns⟩ :: st.undoStack, []⟩ rest)) =
          undoN rest.length (doEdits (doEdit st fid ns) rest) := by
        rw [hU, hst]
      rw [hZ, ← hst]
      exact ih (doEdit st fid ns) hf'

/-- Claim C8: for every sequence of N edits pushed as commands carrying
old and new snapshots (each edit finding its target), N undo calls
restore the entry list to its exact pre-edit state, N subsequent redo
calls restore the exact post-edit state, and undo/redo are no-ops
(returning `None` and leaving the state unchanged) on empty stacks. -/
theorem history_undo_redo (st : HState) (edits : List (String × Snapshot))
    (hf : ∀ p ∈ edits.map Prod.fst, (findEntry p st.entries).isSome = true) :
    (undoN edits.length (doEdits st edits)).entries = st.entries ∧
    redoN edits.length (undoN edits.length (doEdits st edits)) = doEdits st edits ∧
    (∀ s : HState, s.undoStack = [] → undoRun s = (none, s)) ∧
    (∀ s : HState, s.redoStack = [] → redoRun s = (none, s)) := by
  refine ⟨?_, redoN_undoN_doEdits edits st hf, ?_, ?_⟩
  · rw [undoN_doEdits edits st hf]
  · intro s hs
    obtain ⟨es, us, rs⟩ := s
    simp only at hs
    subst hs
    rfl
  · intro s hs
    obtain ⟨es, us, rs⟩ := s
    simp only at hs
    subst hs
    rfl

/-- The single entry of the C8 witness scenario. -/
def hwEntry : HEntry := ⟨"p1", "a.jpg", "a.jpg", [], 0, ""⟩

/-- Two successive edits of the entry `"p1"`. -/
def hwEdits : List (String × Snapshot) :=
  [("p1", ⟨"b.jpg", ["x"], 3, "red"⟩), ("p1", ⟨"c.jpg", [], 5, "blue"⟩)]

/-- Closed instance of `history_undo_redo`: two edits of a one-entry
plan list, starting from empty stacks. -/
theorem history_undo_redo_witness :
    (undoN 2 (doEdits ⟨[hwEntry], [], []⟩ hwEdits)).entries = [hwEntry] ∧
    redoN 2 (undoN 2 (doEdits ⟨[hwEntry], [], []⟩ hwEdits)) =
      doEdits ⟨[hwEntry], [], []⟩ hwEdits ∧
    undoRun ⟨[hwEntry], [], []⟩ = (none, ⟨[hwEntry], [], []⟩) ∧
    redoRun ⟨[hwEntry], [], []⟩ = (none, ⟨[hwEntry], [], []⟩) := by
  have h := history_undo_redo ⟨[hwEntry], [], []⟩ hwEdits (by decide)
  exact ⟨h.1, h.2.1, h.2.2.1 _ rfl, h.2.2.2 _ rfl⟩

end ImgOrg
